import Mathlib

/-!
Verification development for the nedextract candidate-to-entity decision
engine: organization-candidate adjudication, reference-registry matching,
person-name deduplication and person-role resolution, as described in the
repository documentation (README, tutorial notebooks) and the design
specification.  The Python implementation of these functions is not part of
the distributed sources, so each operation is modelled faithfully from the
specification text and settled against that model.
-/

/-- Lowercases a character sequence. -/
def lowerC (s : List Char) : List Char := s.map Char.toLower

/-- Splits a character sequence into words at spaces; the accumulator holds the
characters of the word currently being read, in reverse. -/
def splitWordsAux : List Char → List Char → List (List Char)
  | [], acc => if acc = [] then [] else [acc.reverse]
  | c :: cs, acc =>
    if c = ' ' then
      if acc = [] then splitWordsAux cs [] else acc.reverse :: splitWordsAux cs []
    else
      splitWordsAux cs (c :: acc)

/-- All maximal space-free nonempty words of a character sequence, in order. -/
def splitWords (s : List Char) : List (List Char) := splitWordsAux s []

/-- Joins words back into a single character sequence with single spaces. -/
def joinWords : List (List Char) → List Char
  | [] => []
  | [w] => w
  | w :: ws => w ++ ' ' :: joinWords ws

/-- The lowercased word list of a string. -/
def wordsOf (s : String) : List (List Char) := splitWords (lowerC s.data)

/-- Whether the word sequence `needle` occurs contiguously (word-boundary
contained) inside the word sequence `hay`. -/
def wordSeqIn (needle hay : List (List Char)) : Bool :=
  (List.range (hay.length + 1)).any (fun i => decide (needle <+: hay.drop i))

namespace Org_Keywords

/-- Modelled from the spec: the strong-positive organizational-suffix keywords
of `utils.keywords.Org_Keywords` (terms equivalent to Foundation, Association,
Company), whose listing is missing from the distributed sources. -/
def true_keys : List String := ["stichting", "vereniging", "bedrijf"]

/-- Modelled from the spec: the fixed job-position vocabulary
`utils.keywords.Org_Keywords.position` (the sub-position terms listed in the
README), whose listing is missing from the distributed sources. -/
def position : List String :=
  ["directeur", "voorzitter", "vicevoorzitter", "lid", "penningmeester",
   "commissaris", "adviseur"]

/-- Modelled from the spec: the strong-negative keywords (job-title words and
generic terms) of `utils.keywords.Org_Keywords`, whose listing is missing from
the distributed sources. -/
def false_keys : List String := position ++ ["organisatie"]

end Org_Keywords

/-- Modelled from the spec: the half of `utils.keyword_check` (missing from the
distributed sources) that decides whether a term contains a keyword making it
likely a true organization. -/
def keyword_check_true (t : String) : Bool :=
  Org_Keywords.true_keys.any (fun kw => wordSeqIn (wordsOf kw) (wordsOf t))

/-- Modelled from the spec: the half of `utils.keyword_check` (missing from the
distributed sources) that decides whether a term contains a keyword making it
likely NOT an organization. -/
def keyword_check_false (t : String) : Bool :=
  Org_Keywords.false_keys.any (fun kw => wordSeqIn (wordsOf kw) (wordsOf t))

/-- An aggregated organization candidate: surface text, total mention count,
how often NER tagged it ORG in context, and whether the bare string alone was
tagged ORG by the standalone-recognition pass. -/
structure Candidate where
  text : String
  total_mentions : Nat
  times_tagged_org : Nat
  standalone_org : Bool

/-- An accepted organization with its final whole-word occurrence count in the
full document text. -/
structure TrueOrg where
  name : String
  count : Nat

/-- Modelled from the spec: the tunable minimum occurrence count a containing
true organization must have for the already-part-of-another-true-org check. -/
def orgFreqThreshold : Nat := 5

/-- Modelled from the spec: the minimum number of characters ("enough
characters") the matching true organization must have in `part_of_other`. -/
def minOrgChars : Nat := 5

/-- Whether the only difference between candidate `org` and accepted name `o`
is the presence of a strong-positive organizational-suffix keyword: removing
one such keyword word from `o` leaves exactly the words of `org`. -/
def onlyKeywordDiff (org o : String) : Bool :=
  Org_Keywords.true_keys.any (fun kw =>
    decide ((wordsOf o).filter (fun w => decide (w ≠ kw.data)) = wordsOf org))

/-- Modelled from the spec: `utils.orgs_checks.part_of_other` (missing from the
distributed sources).  True when some already-accepted organization `o` matches
the candidate (word-boundary containment), `o` has enough characters, `o` is
common enough in the analysed text, and it is not the case that the only
difference is the presence of an organizational keyword. -/
def part_of_other (orgs : List TrueOrg) (org : String) : Bool :=
  orgs.any (fun o =>
    decide (org ≠ o.name) &&
    wordSeqIn (wordsOf org) (wordsOf o.name) &&
    decide (orgFreqThreshold ≤ o.count) &&
    decide (minOrgChars ≤ o.name.length) &&
    !(onlyKeywordDiff org o.name))

/-- Modelled from the spec: `utils.orgs_checks.percentage_considered_org`
(missing from the distributed sources) — the percentage of mentions of the
candidate for which NER considered it an organization. -/
def percentage_considered_org (c : Candidate) : ℚ :=
  100 * (c.times_tagged_org : ℚ) / (c.total_mentions : ℚ)

/-- Modelled from the spec: `extract_related_orgs.decide_org` (missing from the
distributed sources), evaluated in the spec's precedence order: the
strong-negative keyword rule first, then the frequency rule for candidates
mentioned at least twice, then the standalone/containment rule for
single-mention candidates; zero-mention candidates are rejected. -/
def decide_org (accepted : List TrueOrg) (c : Candidate) : Bool :=
  if keyword_check_false c.text && !keyword_check_true c.text then
    false
  else if 2 ≤ c.total_mentions then
    decide (50 < percentage_considered_org c) || keyword_check_true c.text
  else if c.total_mentions = 1 then
    if part_of_other accepted c.text then false
    else c.standalone_org || keyword_check_true c.text
  else
    false

/-- C1: for every candidate with at least two mentions that is not rejected by
the strong-negative-keyword rule, the adjudicator accepts exactly when the
percentage of ORG-tagged mentions exceeds 50% or the candidate contains a
strong-positive organizational-suffix keyword. -/
theorem C1_frequent_accept_iff_majority_or_keyword
    (accepted : List TrueOrg) (c : Candidate)
    (h2 : 2 ≤ c.total_mentions)
    (hkw : ¬(keyword_check_false c.text = true ∧ keyword_check_true c.text = false)) :
    decide_org accepted c = true ↔
      (50 < percentage_considered_org c ∨ keyword_check_true c.text = true) := by
  have hneg : (keyword_check_false c.text && !keyword_check_true c.text) = false := by
    cases hf : keyword_check_false c.text <;> cases ht : keyword_check_true c.text <;>
      simp_all
  unfold decide_org
  simp [hneg, h2, Bool.or_eq_true, decide_eq_true_eq]

/-- Witness for C1 on a concrete candidate mentioned three times, twice tagged
ORG. -/
theorem C1_witness :
    2 ≤ (Candidate.mk "Globex Groep" 3 2 false).total_mentions ∧
    ¬(keyword_check_false (Candidate.mk "Globex Groep" 3 2 false).text = true ∧
        keyword_check_true (Candidate.mk "Globex Groep" 3 2 false).text = false) ∧
    (decide_org [] (Candidate.mk "Globex Groep" 3 2 false) = true ↔
      (50 < percentage_considered_org (Candidate.mk "Globex Groep" 3 2 false) ∨
        keyword_check_true (Candidate.mk "Globex Groep" 3 2 false).text = true)) :=
  ⟨by decide, by decide,
    C1_frequent_accept_iff_majority_or_keyword [] _ (by decide) (by decide)⟩

/-- C2: a candidate whose surface text matches a strong-negative keyword and
not a strong-positive keyword is rejected, whatever its mention counts, its
standalone status and the list of already-accepted organizations. -/
theorem C2_negative_keyword_rejects
    (accepted : List TrueOrg) (c : Candidate)
    (hf : keyword_check_false c.text = true)
    (ht : keyword_check_true c.text = false) :
    decide_org accepted c = false := by
  unfold decide_org
  rw [hf, ht]
  simp

/-- Witness for C2 on a concrete job-title candidate with a perfect
ORG-tagging record. -/
theorem C2_witness :
    keyword_check_false (Candidate.mk "de directeur" 10 10 true).text = true ∧
    keyword_check_true (Candidate.mk "de directeur" 10 10 true).text = false ∧
    decide_org [] (Candidate.mk "de directeur" 10 10 true) = false :=
  ⟨by decide, by decide, C2_negative_keyword_rejects [] _ (by decide) (by decide)⟩

/-- C4: a candidate with zero total mentions is never accepted; the
zero-mention case falls through every accepting branch of the decision tree
before any quotient is needed. -/
theorem C4_zero_mentions_never_accepted
    (accepted : List TrueOrg) (c : Candidate)
    (h0 : c.total_mentions = 0) :
    decide_org accepted c = false := by
  unfold decide_org
  rw [h0]
  simp

/-- Witness for C4 on a concrete zero-mention candidate. -/
theorem C4_witness :
    (Candidate.mk "Globex" 0 0 false).total_mentions = 0 ∧
    decide_org [] (Candidate.mk "Globex" 0 0 false) = false :=
  ⟨rfl, C4_zero_mentions_never_accepted [] _ rfl⟩

/-- Counterexample to C3 as stated: the candidate "directeur" has one mention,
was tagged ORG both in context and by the standalone check, and is contained
in no already-accepted organization (the accepted list is empty), yet the
adjudicator rejects it, because the strong-negative-keyword rule takes
precedence over the single-mention acceptance rule. -/
theorem C3_counterexample :
    part_of_other [] (Candidate.mk "directeur" 1 1 true).text = false ∧
    decide_org [] (Candidate.mk "directeur" 1 1 true) = false := by
  exact ⟨by decide, by decide⟩

/-- C3 (amended): for a single-mention candidate tagged ORG both in context
and by the standalone-recognition check, not rejected by the
strong-negative-keyword rule, and for which the already-part-of-another-true-
org check fails, the adjudicator accepts; in particular the candidate
["ABCbank": mentions=1, tagged_org=1, standalone_org=True] is accepted. -/
theorem C3_single_mention_standalone_accepted
    (accepted : List TrueOrg) (c : Candidate)
    (h1 : c.total_mentions = 1)
    (ht : c.times_tagged_org = 1)
    (hs : c.standalone_org = true)
    (hkw : ¬(keyword_check_false c.text = true ∧ keyword_check_true c.text = false))
    (hp : part_of_other accepted c.text = false) :
    decide_org accepted c = true ∧
      decide_org [] (Candidate.mk "ABCbank" 1 1 true) = true := by
  have hneg : (keyword_check_false c.text && !keyword_check_true c.text) = false := by
    cases hf : keyword_check_false c.text <;> cases ht2 : keyword_check_true c.text <;>
      simp_all
  constructor
  · unfold decide_org
    rw [h1, hneg, hp, hs]
    simp
  · decide

/-- Witness for the amended C3 at the ABCbank scenario itself. -/
theorem C3_witness :
    decide_org [] (Candidate.mk "ABCbank" 1 1 true) = true ∧
      decide_org [] (Candidate.mk "ABCbank" 1 1 true) = true :=
  C3_single_mention_standalone_accepted [] (Candidate.mk "ABCbank" 1 1 true)
    rfl rfl rfl (by decide) (by decide)

/-- The main-job vocabulary searched in sentences around a person's name, in
the order listed by the README. -/
def main_jobs : List String :=
  ["directeur", "raad van toezicht", "bestuur", "ledenraad", "kascommissie",
   "controlecommisie"]

/-- The sub-position vocabulary searched around a person's name, in the order
listed by the README. -/
def sub_jobs : List String :=
  ["directeur", "voorzitter", "vicevoorzitter", "lid", "penningmeester",
   "commissaris", "adviseur"]

/-- Whether a keyword phrase occurs word-boundary contained in a sentence,
comparing case-insensitively. -/
def kwInSentence (kw sent : String) : Bool :=
  wordSeqIn (wordsOf kw) (wordsOf sent)

/-- The first main-job keyword found in a sentence, if any. -/
def findMainJob (sent : String) : Option String :=
  main_jobs.find? (fun kw => kwInSentence kw sent)

/-- The first sub-position keyword found in a sentence, if any. -/
def findSubJob (sent : String) : Option String :=
  sub_jobs.find? (fun kw => kwInSentence kw sent)

/-- The role-resolution state of one person-identity group. -/
inductive RoleState where
  | unassigned
  | mainAssigned (main : String)
  | resolved (main : String) (sub : String)
deriving DecidableEq

/-- The main role recorded in a role state, if any. -/
def mainOf : RoleState → Option String
  | RoleState.unassigned => none
  | RoleState.mainAssigned m => some m
  | RoleState.resolved m _ => some m

/-- Modelled from the spec: one step of the Role Resolver state machine
(implemented in the missing `extract_persons` module) on a single contributing
sentence: the first main-job keyword found assigns the main role, after which
the first sub-position keyword found assigns the sub role; assigned roles are
never revised. -/
def stepRole (st : RoleState) (sent : String) : RoleState :=
  match st with
  | RoleState.unassigned =>
    match findMainJob sent with
    | none => RoleState.unassigned
    | some m =>
      match findSubJob sent with
      | none => RoleState.mainAssigned m
      | some sb => RoleState.resolved m sb
  | RoleState.mainAssigned m =>
    match findSubJob sent with
    | none => RoleState.mainAssigned m
    | some sb => RoleState.resolved m sb
  | RoleState.resolved m sb => RoleState.resolved m sb

/-- Modelled from the spec: the Role Resolver run over the contributing
sentences of one person-identity group, starting unassigned. -/
def resolveRoles (sents : List String) : RoleState :=
  List.foldl stepRole RoleState.unassigned sents

/-- C5: the Role Resolver never backtracks — from any state whose main role is
already assigned, processing any additional sentences leaves the main role
unchanged. -/
theorem C5_main_role_monotone
    (sents : List String) (st : RoleState) (r : String)
    (h : mainOf st = some r) :
    mainOf (List.foldl stepRole st sents) = some r := by
  induction sents generalizing st with
  | nil => simpa using h
  | cons s ss ih =>
    apply ih
    cases st with
    | unassigned => simp [mainOf] at h
    | mainAssigned m =>
      cases hfs : findSubJob s <;> simp [stepRole, hfs, mainOf] <;>
        simpa [mainOf] using h
    | resolved m sb => simpa [stepRole, mainOf] using h

/-- Witness for C5: a group already assigned the main role "bestuur" keeps it
after a further sentence that contains a different main-role keyword. -/
theorem C5_witness :
    mainOf (RoleState.mainAssigned "bestuur") = some "bestuur" ∧
    mainOf (List.foldl stepRole (RoleState.mainAssigned "bestuur")
        ["De raad van toezicht vergadert vandaag"]) = some "bestuur" :=
  ⟨rfl, C5_main_role_monotone ["De raad van toezicht vergadert vandaag"]
    (RoleState.mainAssigned "bestuur") "bestuur" rfl⟩

/-- C6: a group whose contributing sentences include "De voorzitter van de
raad van toezicht is Jane Doe" resolves to main role raad van toezicht and sub
role voorzitter. -/
theorem C6_raad_van_toezicht_voorzitter :
    resolveRoles ["De voorzitter van de raad van toezicht is Jane Doe"] =
      RoleState.resolved "raad van toezicht" "voorzitter" := by
  decide

/-- Title and honorific tokens stripped from a raw name before comparison. -/
def titleTokens : List String := ["mr.", "dr.", "drs.", "prof.", "ir.", "dhr.", "mevr."]

/-- Drops leading title tokens from a tokenized name. -/
def stripTitles : List (List Char) → List (List Char)
  | [] => []
  | w :: ws =>
    if titleTokens.any (fun t => decide (t.data = lowerC w)) then stripTitles ws
    else w :: ws

/-- Whether a name token is an initial (it carries a period), e.g. "J.". -/
def isInitialTok (w : List Char) : Bool := w.contains '.'

/-- Whether two given-name tokens denote the same given name: equal ignoring
case, or one is an initial whose letter is the first letter of the other. -/
def tokenMatch (a b : List Char) : Bool :=
  decide (lowerC a = lowerC b) ||
  (isInitialTok a && decide ((lowerC a).head? = (lowerC b).head?)) ||
  (isInitialTok b && decide ((lowerC b).head? = (lowerC a).head?))

/-- Whether every token of `xs` matches some token of `ys` under
initial-aware matching. -/
def tokensSubsetMatch (xs ys : List (List Char)) : Bool :=
  xs.all (fun x => ys.any (fun y => tokenMatch x y))

/-- Modelled from the spec: the similarity rule of the Person Deduplicator
(implemented in the missing `extract_persons` module): after stripping title
tokens, the surnames (final tokens) must agree exactly ignoring case, and the
given-name tokens of one variant must all match tokens of the other,
initials matching first letters of full given names. -/
def sameName (a b : String) : Bool :=
  let ta := stripTitles (splitWords a.data)
  let tb := stripTitles (splitWords b.data)
  match ta.getLast?, tb.getLast? with
  | some sa, some sb =>
    decide (lowerC sa = lowerC sb) &&
    (tokensSubsetMatch ta.dropLast tb.dropLast ||
     tokensSubsetMatch tb.dropLast ta.dropLast)
  | _, _ => false

/-- Folds one raw name into the running group list: it joins the first group
containing a matching variant, otherwise it starts a new group at the end. -/
def insertName (gs : List (List String)) (n : String) : List (List String) :=
  match gs with
  | [] => [[n]]
  | g :: rest =>
    if g.any (fun v => sameName v n) then (g ++ [n]) :: rest
    else g :: insertName rest n

/-- Modelled from the spec: the single-pass greedy clustering of the Person
Deduplicator (implemented in the missing `extract_persons` module), processing
raw names in order of first appearance. -/
def group_names (names : List String) : List (List String) :=
  List.foldl insertName [] names

/-- The number of non-initial tokens of a raw name variant. -/
def nonInitialCount (s : String) : Nat :=
  ((splitWords s.data).filter (fun w => !(isInitialTok w))).length

/-- Modelled from the spec: the canonical display name of a group is the
variant with the greatest number of non-initial tokens, ties broken by first
occurrence order. -/
def canonicalName (g : List String) : String :=
  match g with
  | [] => ""
  | n :: ns =>
    List.foldl (fun best v =>
      if nonInitialCount best < nonInitialCount v then v else best) n ns

/-- C7: the raw names ["J. Doe", "Jane Doe"], in that order, form exactly one
person-identity group whose canonical display name is "Jane Doe". -/
theorem C7_j_doe_jane_doe_single_group :
    group_names ["J. Doe", "Jane Doe"] = [["J. Doe", "Jane Doe"]] ∧
    canonicalName ["J. Doe", "Jane Doe"] = "Jane Doe" := by
  constructor
  · decide
  · decide

/-- A reference-registry row: identifier plus the two name fields used for
matching. -/
structure RegistryEntry where
  rsin : String
  currentStatutoryName : String
  shortBusinessName : String

/-- Lowercases a string. -/
def lowerS (s : String) : String := String.mk (lowerC s.data)

/-- Modelled from the spec: the anbis matching of identified organisations
(implemented in the missing matching module): only full case-insensitive
matches of the organisation name, or of the name with the additional term
"Stichting " at the start, against currentStatutoryName or shortBusinessName
are considered; the rsin of the first matching row is returned. -/
def match_anbis (org : String) (registry : List RegistryEntry) : Option String :=
  (registry.find? (fun e =>
    decide (lowerS org = lowerS e.currentStatutoryName) ||
    decide (lowerS org = lowerS e.shortBusinessName) ||
    decide (lowerS ("Stichting " ++ org) = lowerS e.currentStatutoryName) ||
    decide (lowerS ("Stichting " ++ org) = lowerS e.shortBusinessName))).map
    (fun e => e.rsin)

/-- C8: the matcher returns an identifier exactly when the organisation name,
compared case-insensitively, equals one of the two registry name fields of
some row, either as is or with "Stichting " prefixed; in every other case the
result is none, and no fuzzy comparison ever produces an identifier. -/
theorem C8_match_anbis_exact_iff (org : String) (registry : List RegistryEntry) :
    (match_anbis org registry).isSome = true ↔
      ∃ e ∈ registry,
        lowerS org = lowerS e.currentStatutoryName ∨
        lowerS org = lowerS e.shortBusinessName ∨
        lowerS ("Stichting " ++ org) = lowerS e.currentStatutoryName ∨
        lowerS ("Stichting " ++ org) = lowerS e.shortBusinessName := by
  unfold match_anbis
  rw [Option.isSome_map']
  rw [List.find?_isSome]
  constructor
  · rintro ⟨e, he, hp⟩
    refine ⟨e, he, ?_⟩
    simpa [Bool.or_eq_true, decide_eq_true_eq, or_assoc] using hp
  · rintro ⟨e, he, hp⟩
    refine ⟨e, he, ?_⟩
    simpa [Bool.or_eq_true, decide_eq_true_eq, or_assoc] using hp

/-- C9: the already-part-of-another-true-org check returns true only when some
matching already-accepted organization has at least the minimum number of
characters, over and above being distinct, containing the candidate at word
boundaries, being common enough, and not differing merely by an
organizational keyword; in particular an accepted organization shorter than
the minimum never causes the rejection. -/
theorem C9_part_of_other_needs_long_container
    (orgs : List TrueOrg) (org : String)
    (h : part_of_other orgs org = true) :
    ∃ o ∈ orgs, minOrgChars ≤ o.name.length ∧ orgFreqThreshold ≤ o.count ∧
      org ≠ o.name ∧ wordSeqIn (wordsOf org) (wordsOf o.name) = true ∧
      onlyKeywordDiff org o.name = false := by
  unfold part_of_other at h
  rw [List.any_eq_true] at h
  obtain ⟨o, ho, hc⟩ := h
  simp only [Bool.and_eq_true, decide_eq_true_eq, Bool.not_eq_true'] at hc
  obtain ⟨⟨⟨⟨hne, hwseq⟩, hfreq⟩, hlen⟩, hkwd⟩ := hc
  exact ⟨o, ho, hlen, hfreq, hne, hwseq, hkwd⟩

/-- Witness for C9 on a candidate "Bank" contained in the frequent accepted
organization "ABC Bank Groep". -/
theorem C9_witness :
    ∃ o ∈ [TrueOrg.mk "ABC Bank Groep" 6],
      minOrgChars ≤ o.name.length ∧ orgFreqThreshold ≤ o.count ∧
      "Bank" ≠ o.name ∧ wordSeqIn (wordsOf "Bank") (wordsOf o.name) = true ∧
      onlyKeywordDiff "Bank" o.name = false :=
  C9_part_of_other_needs_long_container [TrueOrg.mk "ABC Bank Groep" 6] "Bank"
    (by decide)

/-- Every word produced by the splitter is nonempty and space-free, provided
the accumulator is space-free. -/
theorem splitWordsAux_words_wf (s : List Char) :
    ∀ acc, ' ' ∉ acc → ∀ w ∈ splitWordsAux s acc, w ≠ [] ∧ ' ' ∉ w := by
  induction s with
  | nil =>
    intro acc hacc w hw
    by_cases h : acc = []
    · simp [splitWordsAux, h] at hw
    · simp [splitWordsAux, h] at hw
      subst hw
      refine ⟨by simpa using h, by simpa using hacc⟩
  | cons c cs ih =>
    intro acc hacc w hw
    by_cases hc : c = ' '
    · subst hc
      by_cases h : acc = []
      · simp [splitWordsAux, h] at hw
        exact ih [] (by simp) w hw
      · simp [splitWordsAux, h] at hw
        rcases hw with hw | hw
        · subst hw
          refine ⟨by simpa using h, by simpa using hacc⟩
        · exact ih [] (by simp) w hw
    · simp [splitWordsAux, hc] at hw
      refine ih (c :: acc) ?_ w hw
      intro hmem
      rcases List.mem_cons.1 hmem with hmem | hmem
      · exact hc hmem.symm
      · exact hacc hmem

/-- Feeding a space-free word to the splitter just loads it into the
accumulator. -/
theorem splitWordsAux_append (w : List Char) :
    ∀ rest acc, ' ' ∉ w →
      splitWordsAux (w ++ rest) acc = splitWordsAux rest (w.reverse ++ acc) := by
  induction w with
  | nil => intro rest acc _; simp
  | cons c cw ih =>
    intro rest acc hw
    have hc : ¬(c = ' ') := fun h => hw (by simp [h])
    have hcw : ' ' ∉ cw := fun h => hw (by simp [h])
    simp only [List.cons_append, splitWordsAux, if_neg hc, List.append_eq]
    rw [ih rest (c :: acc) hcw]
    rw [List.reverse_cons, List.append_assoc]
    rfl

/-- Splitting the joined form of a list of nonempty space-free words recovers
exactly that list. -/
theorem splitWords_joinWords (ws : List (List Char))
    (h : ∀ w ∈ ws, w ≠ [] ∧ ' ' ∉ w) :
    splitWords (joinWords ws) = ws := by
  induction ws with
  | nil => simp [splitWords, joinWords, splitWordsAux]
  | cons w ws ih =>
    have hw := h w (List.mem_cons_self w ws)
    cases ws with
    | nil =>
      show splitWordsAux (joinWords [w]) [] = [w]
      have : joinWords [w] = w ++ [] := by simp [joinWords]
      rw [this, splitWordsAux_append w [] [] hw.2]
      simp [splitWordsAux, hw.1]
    | cons v vs =>
      show splitWordsAux (joinWords (w :: v :: vs)) [] = w :: v :: vs
      have hjoin : joinWords (w :: v :: vs) = w ++ ' ' :: joinWords (v :: vs) := rfl
      rw [hjoin, splitWordsAux_append w (' ' :: joinWords (v :: vs)) [] hw.2]
      have hrev : w.reverse ++ ([] : List Char) ≠ [] := by
        simpa using hw.1
      simp only [splitWordsAux, if_pos rfl, if_neg hrev]
      have hih : splitWordsAux (joinWords (v :: vs)) [] = v :: vs :=
        ih (fun x hx => h x (List.mem_cons_of_mem w hx))
      rw [hih]
      simp

/-- Modelled from the spec: `utils.orgs_checks.strip_function_of_entity`
(missing from the distributed sources): removes from the identified
organisation term every word that is a job position from
`Org_Keywords.position`, compared case-insensitively. -/
def strip_function_of_entity (term : String) : String :=
  String.mk (joinWords ((splitWords term.data).filter
    (fun w => !(decide (lowerC w ∈ Org_Keywords.position.map String.data)))))

/-- C10: after stripping, the returned organisation name contains no
job-position keyword from the fixed position vocabulary: no word of the
result equals such a keyword, compared case-insensitively. -/
theorem C10_strip_removes_positions (term : String) (kw : String)
    (hkw : kw ∈ Org_Keywords.position) :
    kw.data ∉ (splitWords (strip_function_of_entity term).data).map lowerC := by
  intro hmem
  have hwf : ∀ w ∈ (splitWords term.data).filter
      (fun w => !(decide (lowerC w ∈ Org_Keywords.position.map String.data))),
      w ≠ [] ∧ ' ' ∉ w := by
    intro w hw
    exact splitWordsAux_words_wf term.data [] (by simp) w (List.mem_filter.1 hw).1
  have hdata : (strip_function_of_entity term).data =
      joinWords ((splitWords term.data).filter
        (fun w => !(decide (lowerC w ∈ Org_Keywords.position.map String.data)))) := rfl
  rw [hdata, splitWords_joinWords _ hwf] at hmem
  obtain ⟨w, hwmem, hlw⟩ := List.mem_map.1 hmem
  have hpred := (List.mem_filter.1 hwmem).2
  rw [Bool.not_eq_true', decide_eq_false_iff_not] at hpred
  exact hpred (hlw ▸ List.mem_map_of_mem String.data hkw)

/-- Witness for C10: stripping the term "Directeur Stichting Hulp" leaves no
occurrence of the position keyword "directeur". -/
theorem C10_witness :
    "directeur" ∈ Org_Keywords.position ∧
    "directeur".data ∉
      (splitWords (strip_function_of_entity "Directeur Stichting Hulp").data).map
        lowerC :=
  ⟨by decide, C10_strip_removes_positions "Directeur Stichting Hulp" "directeur"
    (by decide)⟩
